import Mathlib

/- Verification of the gdrive-timestamp-updater core (src/main.py) against its
natural-language specification.  The four core functions are embedded as
computable Lean definitions:

* `validate_rfc3339` — the timestamp validator (main.py lines 72-80), which
  calls CPython `datetime.strptime` on the two formats
  `%Y-%m-%dT%H:%M:%S.%fZ` and `%Y-%m-%dT%H:%M:%SZ`.  The strptime directive
  semantics are embedded explicitly, regex by regex as CPython 3.11's
  `_strptime` compiles them: in a str pattern `\d` matches any Unicode
  decimal digit (category Nd, embedded as its 66 aligned runs of ten code
  points, Unicode 14.0) while explicit classes such as `[0-9]` or `[0-5]` and
  the space-padded day alternative are ASCII-only; literals match
  case-insensitively (IGNORECASE), the match must consume the whole string,
  group values are read positionally as `int` reads them, and the `datetime`
  constructor's range checks run on the parsed fields.
* `retryable_update` — the retrying mutator (lines 98-130).  The remote call's
  behaviour is a parameter `service` giving the result of each attempt; the
  stream of `random.random()` draws is a parameter `jitter`.
* `list_children` — the paginated lister (lines 133-149), with the server's
  page responses a parameter, and an explicit fuel bound standing for the
  unbounded `while True` loop.
* `update_folder_and_contents` — the traversal engine (lines 152-210), a
  queue/visited-set loop over a children map, again fuel-bounded.  Mutator
  outcomes are abstracted to the trace of mutator invocations (id paired with
  the dry-run flag passed), since the claims about the engine concern which
  objects are listed and mutated and in which order. -/

/-- Mime type marking a Drive folder (main.py line 29). -/
def FOLDER_MIME : String := "application/vnd.google-apps.folder"

/-- Module-level default retry count (main.py line 30). -/
def DEFAULT_RETRIES : Nat := 5

/-- A child record as returned by the Drive list call: the fields `id, name,
mimeType` requested at main.py line 140. -/
structure DriveFile where
  id : String
  name : String
  mimeType : String
deriving DecidableEq, Repr

/-- The environment seen by the traversal engine: for each folder id, the full
(already de-paginated) list of its direct non-trashed children, in the server's
listing order — the value `list_children` returns for that folder. -/
abbrev ChildrenMap := String → List DriveFile

/-- The ids of a children listing, in listing order: each one receives a
`retryable_update` call in the `for c in children` loop (main.py 182-208). -/
def childIds (children : List DriveFile) : List String :=
  children.map DriveFile.id

/-- The ids that the children loop appends to the queue: folder children, and
only when `recursive` is set (main.py 187, 197-198). -/
def enqIds (recursive : Bool) (children : List DriveFile) : List String :=
  if recursive then (children.filter (fun c => c.mimeType == FOLDER_MIME)).map DriveFile.id
  else []

/-- The `while queue` loop of `update_folder_and_contents` (main.py 171-208).
Returns the trace of mutator invocations (file id, dry-run flag passed) and the
trace of folder ids passed to `list_children`, in order.  `fuel` bounds the
number of loop iterations; `none` means the bound was hit. -/
def walkLoop (env : ChildrenMap) (recursive dry_run : Bool) :
    Nat → List String → List String → Option (List (String × Bool) × List String)
  | 0, [], _ => some ([], [])
  | 0, _ :: _, _ => none
  | _ + 1, [], _ => some ([], [])
  | fuel + 1, current :: rest, visited =>
    if current ∈ visited then
      walkLoop env recursive dry_run fuel rest visited
    else
      (walkLoop env recursive dry_run fuel
          (rest ++ enqIds recursive (env current)) (current :: visited)).map
        (fun r => ((childIds (env current)).map (fun i => (i, dry_run)) ++ r.1,
                   current :: r.2))

/-- Embedding of `update_folder_and_contents` (main.py 152-210): the root itself is passed to
the mutator first, unconditionally, then the queue/visited loop runs starting
from `queue = [folder_id]`, `visited = {}`. -/
def update_folder_and_contents (env : ChildrenMap) (folder_id : String)
    (recursive dry_run : Bool) (fuel : Nat) :
    Option (List (String × Bool) × List String) :=
  match walkLoop env recursive dry_run fuel [folder_id] [] with
  | none => none
  | some (mt, ls) => some ((folder_id, dry_run) :: mt, ls)

/-- The traversal loop stripped of the visited-set guard, and of the dry-run
flag: the reference behaviour on inputs where the guard never fires.  Returns
(mutated ids, listed folder ids). -/
def pureLoop (env : ChildrenMap) (recursive : Bool) :
    Nat → List String → Option (List String × List String)
  | 0, [] => some ([], [])
  | 0, _ :: _ => none
  | _ + 1, [] => some ([], [])
  | fuel + 1, current :: rest =>
    (pureLoop env recursive fuel (rest ++ enqIds recursive (env current))).map
      (fun r => (childIds (env current) ++ r.1, current :: r.2))

/-- All children mutated when expanding every folder of a BFS front, in order:
per-folder listing order, folders in front order. -/
def levelMuts (env : ChildrenMap) (front : List String) : List String :=
  (front.map (fun i => childIds (env i))).flatten

/-- The next BFS front: the folder ids enqueued while expanding a front. -/
def nextFront (env : ChildrenMap) (recursive : Bool) (front : List String) : List String :=
  (front.map (fun i => enqIds recursive (env i))).flatten

/-- The first `d` BFS fronts starting from a given front. -/
def fronts (env : ChildrenMap) (recursive : Bool) : Nat → List String → List (List String)
  | 0, _ => []
  | d + 1, front => front :: fronts env recursive d (nextFront env recursive front)

/-- The BFS front after `d` steps. -/
def frontAfter (env : ChildrenMap) (recursive : Bool) : Nat → List String → List String
  | 0, front => front
  | d + 1, front => frontAfter env recursive d (nextFront env recursive front)

/-- A cyclic children map: folder A lists folder B as its only child, and
folder B lists folder A back (a cyclic parent reference). -/
def cycEnv : ChildrenMap := fun i =>
  if i == "A" then [⟨"B", "folderB", FOLDER_MIME⟩]
  else if i == "B" then [⟨"A", "folderA", FOLDER_MIME⟩]
  else []

/-- The children map of the spec's scenario: root R has children folderA (a
folder) and file1 (an item); folderA has the single child file2 (an item). -/
def scenarioEnv : ChildrenMap := fun i =>
  if i == "R" then [⟨"folderA", "folderA", FOLDER_MIME⟩, ⟨"file1", "file1", "text/plain"⟩]
  else if i == "folderA" then [⟨"file2", "file2", "text/plain"⟩]
  else []

/-- Dropping the dry-run flags from an engine result. -/
def stripFlags (r : List (String × Bool) × List String) : List String × List String :=
  (r.1.map Prod.fst, r.2)

/-- The possible results of one `service.files().update(...).execute()` call
(main.py 107-112): a successful response, an `HttpError` whose `e.resp.status`
reads as the given integer status — `none` when the status cannot be read
(main.py 115-119) — or an exception that is not an `HttpError` at all. -/
inductive CallResult where
  | ok (resp : Nat)
  | httpError (status : Option Nat)
  | otherError
deriving DecidableEq, Repr

/-- How a `retryable_update` call ends: return `None` in dry-run mode, return a
response, re-raise a non-retryable `HttpError`, let a non-HttpError exception
propagate, or raise `RuntimeError` after exhausting the retries. -/
inductive UpdateOutcome where
  | skipped
  | ok (resp : Nat)
  | raisedHttp (status : Option Nat)
  | raisedOther
  | retriesExhausted
deriving DecidableEq, Repr

/-- The retry test of main.py line 122: `status in (429, 500, 503)`. -/
def isTransientStatus (status : Option Nat) : Bool :=
  status == some 429 || status == some 500 || status == some 503

/-- Whether an attempt's result takes the retry branch of the loop. -/
def isTransient : CallResult → Bool
  | .httpError status => isTransientStatus status
  | _ => false

/-- What the caller sees when an attempt ends the loop at once (main.py 113 and
129): a successful response is returned, a non-retryable HttpError is
re-raised, and a non-HttpError exception propagates uncaught. -/
def immediateOutcome : CallResult → UpdateOutcome
  | .ok r => .ok r
  | .httpError status => .raisedHttp status
  | .otherError => .raisedOther

/-- A complete `retryable_update` run: its outcome, the backoff sleeps
performed (attempt index paired with the `time.sleep` duration in seconds,
main.py 123-125), and how many update calls were issued. -/
structure UpdateRun where
  outcome : UpdateOutcome
  sleeps : List (Nat × ℚ)
  calls : Nat
deriving DecidableEq, Repr

/-- The `for attempt in range(max_retries)` loop of main.py 105-130, with `rem`
attempts remaining.  `call` gives each attempt's result and `jitter` the stream
of `random.random()` draws; falling off the loop raises
`RuntimeError` for exceeded retries (main.py 130). -/
def retryLoop (call : Nat → CallResult) (jitter : Nat → ℚ) (backoff_base : ℚ) :
    Nat → Nat → UpdateRun
  | _, 0 => ⟨.retriesExhausted, [], 0⟩
  | attempt, rem + 1 =>
    match call attempt with
    | .ok r => ⟨.ok r, [], 1⟩
    | .otherError => ⟨.raisedOther, [], 1⟩
    | .httpError status =>
      if isTransientStatus status then
        let sleep_for := backoff_base * 2 ^ attempt + jitter attempt
        let rest := retryLoop call jitter backoff_base (attempt + 1) rem
        ⟨rest.outcome, (attempt, sleep_for) :: rest.sleeps, rest.calls + 1⟩
      else ⟨.raisedHttp status, [], 1⟩

/-- Embedding of `retryable_update` (main.py 98-130).  `service` gives the result of the
update call as a function of the file id, the body's new modifiedTime and the
attempt number; `fields` is the response field selection of main.py 110, which
does not affect control flow.  `backoff_base = 1` as at main.py 104. -/
def retryable_update (service : String → String → Nat → CallResult)
    (jitter : Nat → ℚ) (file_id : String) (body : String) (fields : String)
    (dry_run : Bool) (max_retries : Nat) : UpdateRun :=
  if dry_run then ⟨.skipped, [], 0⟩
  else retryLoop (service file_id body) jitter 1 0 max_retries

/-- Attempt results that rate-limit twice and then return a forbidden status:
HTTP 429, 429, then 403 (for every file id and body). -/
def svc403 : String → String → Nat → CallResult := fun _ _ i =>
  if i < 2 then .httpError (some 429) else .httpError (some 403)

/-- Attempt results that always rate-limit: HTTP 429 on every attempt. -/
def svc429 : String → String → Nat → CallResult := fun _ _ _ => .httpError (some 429)

/-- One page returned by `service.files().list(...).execute()` (main.py
138-144): the `files` entries and the optional `nextPageToken`. -/
structure DrivePage where
  files : List DriveFile
  nextPageToken : Option String
deriving DecidableEq, Repr

/-- How a `list_children` call ends: the aggregated children on success, an
HttpError propagated uninterpreted from a list call, or the fuel bound standing
for a never-ending token chain. -/
inductive ListOutcome where
  | ok (children : List DriveFile)
  | httpError
  | fuelOut
deriving DecidableEq, Repr

/-- The `while True` pagination loop of main.py 137-148: `children` is the
accumulator extended with each page's files, `page_token` the token sent on the
next call (`none` for the first call), and the result also carries the trace of
tokens actually requested.  `server` maps a request token to the page the
remote service answers, or `none` for an HttpError raised by the call. -/
def listLoop (server : Option String → Option DrivePage) :
    Nat → List DriveFile → Option String → ListOutcome × List (Option String)
  | 0, _, _ => (.fuelOut, [])
  | fuel + 1, children, page_token =>
    match server page_token with
    | none => (.httpError, [page_token])
    | some page =>
      match page.nextPageToken with
      | none => (.ok (children ++ page.files), [page_token])
      | some t =>
        let r := listLoop server fuel (children ++ page.files) (some t)
        (r.1, page_token :: r.2)

/-- Embedding of `list_children` (main.py 133-149) for a given parent id: start with an
empty accumulator and no page token. -/
def list_children (server : String → Option String → Option DrivePage)
    (parent_id : String) (fuel : Nat) : ListOutcome × List (Option String) :=
  listLoop (server parent_id) fuel [] none

/-- The chain of pages the server serves from a starting token, each paired
with the token that requests it, following `nextPageToken` until a page carries
none; `none` when the chain fails or does not finish within the fuel. -/
def pageChain (call : Option String → Option DrivePage) :
    Nat → Option String → Option (List (Option String × DrivePage))
  | 0, _ => none
  | fuel + 1, tok =>
    match call tok with
    | none => none
    | some page =>
      match page.nextPageToken with
      | none => some [(tok, page)]
      | some t => (pageChain call fuel (some t)).map (fun ps => (tok, page) :: ps)

/-- A two-page server: the first request (no token) answers files a and b and
continuation token "t1"; the request with "t1" answers file c and no further
token.  Any other request fails. -/
def twoPageServer : String → Option String → Option DrivePage := fun _ tok =>
  match tok with
  | none => some ⟨[⟨"a", "a", "text/plain"⟩, ⟨"b", "b", "text/plain"⟩], some "t1"⟩
  | some t => if t == "t1" then some ⟨[⟨"c", "c", "text/plain"⟩], none⟩ else none

/-- Start code points of the 66 runs of ten consecutive Unicode decimal digits
(category Nd, Unicode 14.0 as shipped with CPython 3.11); each run holds the
digits 0-9 of one script, the ASCII digits being the run at 48.  In a CPython
str pattern `\d` matches exactly these characters, and `int` reads each of
them positionally as its offset in its run. -/
def ndRangeStarts : List Nat :=
  [48, 1632, 1776, 1984, 2406, 2534, 2662, 2790, 2918, 3046, 3174, 3302, 3430,
   3558, 3664, 3792, 3872, 4160, 4240, 6112, 6160, 6470, 6608, 6784, 6800, 6992,
   7088, 7232, 7248, 42528, 43216, 43264, 43472, 43504, 43600, 44016, 65296,
   66720, 68912, 69734, 69872, 69942, 70096, 70384, 70736, 70864, 71248, 71360,
   71472, 71904, 72016, 72784, 73040, 73120, 92768, 92864, 93008, 120782,
   120792, 120802, 120812, 120822, 123200, 123632, 125264, 130032]

/-- What `\d` matches in a CPython str pattern: any Unicode decimal digit. -/
def isDecDigit (c : Char) : Bool :=
  ndRangeStarts.any (fun b => decide (b ≤ c.toNat) && decide (c.toNat ≤ b + 9))

/-- The decimal value `int` assigns a Unicode decimal digit: its offset in its
run of ten (0 for non-digits, where it is never used). -/
def digitVal (c : Char) : Nat :=
  match ndRangeStarts.find? (fun b => decide (b ≤ c.toNat) && decide (c.toNat ≤ b + 9)) with
  | some b => c.toNat - b
  | none => 0

/-- The value `int` assigns a run of decimal digits, most significant digit
first. -/
def digitsVal (cs : List Char) : Nat := cs.foldl (fun a c => a * 10 + digitVal c) 0

/-- An ASCII character-range test: the explicit classes of the strptime field
regexes, such as `[0-5]` or `[1-9]`, match ASCII characters only. -/
def asciiBetween (lo hi c : Char) : Bool :=
  decide (lo.toNat ≤ c.toNat) && decide (c.toNat ≤ hi.toNat)

/-- A run of Unicode decimal digits. -/
def DigitRun (cs : List Char) : Prop := ∀ c ∈ cs, isDecDigit c = true

/-- Full-run matches of the `%Y` regex `\d\d\d\d`: exactly four decimal
digits. -/
def yearRunOk (run : List Char) : Bool := run.length == 4

/-- Full-run matches of the `%m` regex `1[0-2]|0[1-9]|[1-9]` (CPython 3.11
`_strptime`): all its classes are explicit, so months admit ASCII digits
only. -/
def monthRunOk : List Char → Bool
  | [c] => asciiBetween '1' '9' c
  | [c1, c2] => (c1 == '1' && asciiBetween '0' '2' c2)
      || (c1 == '0' && asciiBetween '1' '9' c2)
  | _ => false

/-- Full-run matches of the digit alternatives of the `%d` regex
`3[0-1]|[1-2]\d|0[1-9]|[1-9]| [1-9]`: after a leading ASCII 1 or 2 the second
digit may be any Unicode decimal digit; the space-padded alternative is
handled in `matchDay`. -/
def dayRunOk : List Char → Bool
  | [c] => asciiBetween '1' '9' c
  | [c1, c2] => (c1 == '3' && asciiBetween '0' '1' c2)
      || ((c1 == '1' || c1 == '2') && isDecDigit c2)
      || (c1 == '0' && asciiBetween '1' '9' c2)
  | _ => false

/-- Full-run matches of the `%H` regex `2[0-3]|[0-1]\d|\d`. -/
def hourRunOk : List Char → Bool
  | [c] => isDecDigit c
  | [c1, c2] => (c1 == '2' && asciiBetween '0' '3' c2)
      || ((c1 == '0' || c1 == '1') && isDecDigit c2)
  | _ => false

/-- Full-run matches of the `%M` regex `[0-5]\d|\d`. -/
def minuteRunOk : List Char → Bool
  | [c] => isDecDigit c
  | [c1, c2] => asciiBetween '0' '5' c1 && isDecDigit c2
  | _ => false

/-- Full-run matches of the `%S` regex `6[0-1]|[0-5]\d|\d` (60 and 61 match
here and are rejected later by the datetime constructor). -/
def secondRunOk : List Char → Bool
  | [c] => isDecDigit c
  | [c1, c2] => (c1 == '6' && asciiBetween '0' '1' c2)
      || (asciiBetween '0' '5' c1 && isDecDigit c2)
  | _ => false

/-- Full-run matches of the `%f` regex `[0-9]{1,6}`: one to six ASCII
digits. -/
def fracRunOk (run : List Char) : Bool :=
  run.all Char.isDigit && decide (1 ≤ run.length) && decide (run.length ≤ 6)

/-- Match one numeric directive against the head of the input.  Every
alternative of a field regex matches decimal digits only and the next pattern
element is a non-digit literal, so a successful overall match must consume
each maximal decimal-digit run exactly; that happens iff one alternative
matches the whole run, which is what the `runOk` predicates decide. -/
def matchField (runOk : List Char → Bool) (cs : List Char) : Option (Nat × List Char) :=
  if runOk (cs.takeWhile isDecDigit) = true then
    some (digitsVal (cs.takeWhile isDecDigit), cs.dropWhile isDecDigit)
  else none

/-- Match the `%d` directive: an input starting with a space can match only
the space-padded alternative ` [1-9]`, whose group value `int` reads ignoring
the space; otherwise the digit-run alternatives apply. -/
def matchDay (cs : List Char) : Option (Nat × List Char) :=
  match cs with
  | [] => none
  | c0 :: rest0 =>
    if c0 = ' ' then
      match rest0 with
      | c :: rest =>
          if asciiBetween '1' '9' c = true then some (digitVal c, rest) else none
      | [] => none
    else matchField dayRunOk (c0 :: rest0)

/-- Match the `%f` directive (its value does not matter to the validator). -/
def matchFrac (cs : List Char) : Option (List Char) :=
  if fracRunOk (cs.takeWhile isDecDigit) = true then some (cs.dropWhile isDecDigit)
  else none

/-- Match one literal character exactly. -/
def matchChar (c : Char) : List Char → Option (List Char)
  | [] => none
  | x :: xs => if x = c then some xs else none

/-- Match one literal character in either of two spellings: strptime compiles
its pattern with IGNORECASE, so the literals T and Z also match in lower
case. -/
def matchEither (a b : Char) : List Char → Option (List Char)
  | [] => none
  | x :: xs => if x = a ∨ x = b then some xs else none

/-- The six calendar fields read back by strptime. -/
structure ParsedTime where
  year : Nat
  month : Nat
  day : Nat
  hour : Nat
  minute : Nat
  second : Nat
deriving DecidableEq, Repr

/-- The combined regex match for the formats `%Y-%m-%dT%H:%M:%S.%fZ` and
`%Y-%m-%dT%H:%M:%SZ` as CPython 3.11 `_strptime` compiles them, one field
matcher per directive, the literal T and Z matching case-insensitively (the
pattern is compiled with IGNORECASE), and the match consuming the whole
string. -/
def matchDateTime (withFrac : Bool) (cs : List Char) : Option ParsedTime :=
  (matchField yearRunOk cs).bind fun p1 =>
  (matchChar '-' p1.2).bind fun r2 =>
  (matchField monthRunOk r2).bind fun p2 =>
  (matchChar '-' p2.2).bind fun r4 =>
  (matchDay r4).bind fun p3 =>
  (matchEither 'T' 't' p3.2).bind fun r6 =>
  (matchField hourRunOk r6).bind fun p4 =>
  (matchChar ':' p4.2).bind fun r8 =>
  (matchField minuteRunOk r8).bind fun p5 =>
  (matchChar ':' p5.2).bind fun r10 =>
  (matchField secondRunOk r10).bind fun p6 =>
  (if withFrac then (matchChar '.' p6.2).bind matchFrac else some p6.2).bind fun r12 =>
  (matchEither 'Z' 'z' r12).bind fun r13 =>
  if r13 = [] then some ⟨p1.1, p2.1, p3.1, p4.1, p5.1, p6.1⟩ else none

/-- The Gregorian leap-year rule used by Python's `datetime`. -/
def isLeapYear (y : Nat) : Bool :=
  (y % 4 == 0 && y % 100 != 0) || y % 400 == 0

/-- Days in a month of the proleptic Gregorian calendar. -/
def daysInMonth (y m : Nat) : Nat :=
  if m == 2 then (if isLeapYear y then 29 else 28)
  else if m == 4 || m == 6 || m == 9 || m == 11 then 30
  else 31

/-- The range checks of the `datetime(...)` constructor that
`datetime.strptime` builds its result with: year 1-9999, a calendar-valid
month/day, hour up to 23, minute up to 59 and second up to 59 (so the leap
seconds admitted by the `%S` regex are rejected here with a `ValueError`). -/
def DatetimeCtorOk (t : ParsedTime) : Prop :=
  1 ≤ t.year ∧ t.year ≤ 9999 ∧ 1 ≤ t.month ∧ t.month ≤ 12 ∧ 1 ≤ t.day
  ∧ t.day ≤ daysInMonth t.year t.month ∧ t.hour ≤ 23 ∧ t.minute ≤ 59 ∧ t.second ≤ 59

/-- The constructor checks are decidable. -/
instance (t : ParsedTime) : Decidable (DatetimeCtorOk t) := by
  unfold DatetimeCtorOk
  infer_instance

/-- Whether `datetime.strptime(ts, fmt)` succeeds for the fractional
(`withFrac = true`) or whole-seconds format: the regex must match the whole
string and the parsed fields must pass the datetime constructor. -/
def strptimeAccepts (withFrac : Bool) (ts : String) : Bool :=
  match matchDateTime withFrac ts.data with
  | none => false
  | some t => decide (DatetimeCtorOk t)

/-- Embedding of `validate_rfc3339` (main.py 72-80): try strptime with the fractional
format, then with the whole-seconds format, returning whether either succeeds;
a `ValueError` (failed match or out-of-range field) just moves on to the next
format, so the function is total and never raises. -/
def validate_rfc3339 (ts : String) : Bool :=
  strptimeAccepts true ts || strptimeAccepts false ts

/-- The claim's literal whole-seconds layout `YYYY-MM-DDTHH:MM:SSZ`:
fixed-width digit fields with literal separators, transcribed from the spec's
words for comparison with the code's validator. -/
def specLayoutWhole (s : String) : Bool :=
  match s.data with
  | [y1, y2, y3, y4, c1, m1, m2, c2, d1, d2, c3, h1, h2, c4, n1, n2, c5, s1, s2, c6] =>
    y1.isDigit && y2.isDigit && y3.isDigit && y4.isDigit && (c1 == '-')
      && m1.isDigit && m2.isDigit && (c2 == '-') && d1.isDigit && d2.isDigit
      && (c3 == 'T') && h1.isDigit && h2.isDigit && (c4 == ':')
      && n1.isDigit && n2.isDigit && (c5 == ':') && s1.isDigit && s2.isDigit
      && (c6 == 'Z')
  | _ => false

/-- The claim's literal fractional layout `YYYY-MM-DDTHH:MM:SS.ffffffZ`:
fixed-width digit fields, six fractional digits, transcribed from the spec's
words. -/
def specLayoutFrac (s : String) : Bool :=
  match s.data with
  | [y1, y2, y3, y4, c1, m1, m2, c2, d1, d2, c3, h1, h2, c4, n1, n2, c5, s1, s2,
     c6, f1, f2, f3, f4, f5, f6, c7] =>
    y1.isDigit && y2.isDigit && y3.isDigit && y4.isDigit && (c1 == '-')
      && m1.isDigit && m2.isDigit && (c2 == '-') && d1.isDigit && d2.isDigit
      && (c3 == 'T') && h1.isDigit && h2.isDigit && (c4 == ':')
      && n1.isDigit && n2.isDigit && (c5 == ':') && s1.isDigit && s2.isDigit
      && (c6 == '.') && f1.isDigit && f2.isDigit && f3.isDigit && f4.isDigit
      && f5.isDigit && f6.isDigit && (c7 == 'Z')
  | _ => false

/-- A day field: a digit run matching the day regex's digit alternatives, or
the space-padded single ASCII digit of its ` [1-9]` alternative. -/
def DayField (ds : List Char) : Prop :=
  (DigitRun ds ∧ dayRunOk ds = true)
  ∨ (∃ c, ds = [' ', c] ∧ asciiBetween '1' '9' c = true)

/-- The fields of an accepted timestamp: each run matches its directive's
regex, and the values pass the datetime constructor. -/
def goodCore (ys ms ds hs ns ss : List Char) : Prop :=
  DigitRun ys ∧ yearRunOk ys = true
  ∧ DigitRun ms ∧ monthRunOk ms = true
  ∧ DayField ds
  ∧ DigitRun hs ∧ hourRunOk hs = true
  ∧ DigitRun ns ∧ minuteRunOk ns = true
  ∧ DigitRun ss ∧ secondRunOk ss = true
  ∧ DatetimeCtorOk ⟨digitsVal ys, digitsVal ms, digitsVal ds, digitsVal hs,
      digitsVal ns, digitsVal ss⟩

/-- A string the whole-seconds format accepts, spelled declaratively: a
decomposition into field runs and literal separators (T and Z in either
case). -/
def goodWhole (s : String) : Prop :=
  ∃ ys ms ds hs ns ss tc zc,
    goodCore ys ms ds hs ns ss ∧ (tc = 'T' ∨ tc = 't') ∧ (zc = 'Z' ∨ zc = 'z')
    ∧ s.data
      = ys ++ ('-' :: (ms ++ ('-' :: (ds ++ (tc :: (hs ++ (':' :: (ns ++ (':' :: (ss ++ [zc]))))))))))

/-- A string the fractional format accepts: as `goodWhole` plus a dot and a
fractional-digit run before the Z. -/
def goodFrac (s : String) : Prop :=
  ∃ ys ms ds hs ns ss fr tc zc,
    goodCore ys ms ds hs ns ss ∧ DigitRun fr ∧ fracRunOk fr = true
    ∧ (tc = 'T' ∨ tc = 't') ∧ (zc = 'Z' ∨ zc = 'z')
    ∧ s.data
      = ys ++ ('-' :: (ms ++ ('-' :: (ds ++ (tc :: (hs ++ (':' :: (ns ++ (':' :: (ss ++ ('.' :: (fr ++ [zc]))))))))))))

/-- The strings accepted by the code's validator, spelled declaratively. -/
def goodTimestamp (s : String) : Prop := goodFrac s ∨ goodWhole s

/-- The loop does nothing on an empty queue, for any fuel. -/
theorem walkLoop_nil (env : ChildrenMap) (recursive dry_run : Bool)
    (fuel : Nat) (visited : List String) :
    walkLoop env recursive dry_run fuel [] visited = some ([], []) := by
  cases fuel <;> rfl

/-- The pure loop does nothing on an empty queue, for any fuel. -/
theorem pureLoop_nil (env : ChildrenMap) (recursive : Bool) (fuel : Nat) :
    pureLoop env recursive fuel [] = some ([], []) := by
  cases fuel <;> rfl

/-- Every run of the engine loop expands pairwise-distinct folder ids, none of
them already visited: the visited set only grows and is checked at dequeue
time. -/
theorem walkLoop_listed_nodup (env : ChildrenMap) (recursive dry_run : Bool) :
    ∀ (fuel : Nat) (queue visited : List String)
      (mt : List (String × Bool)) (ls : List String),
      walkLoop env recursive dry_run fuel queue visited = some (mt, ls) →
      ls.Nodup ∧ ∀ x ∈ ls, x ∉ visited := by
  intro fuel
  induction fuel with
  | zero =>
    intro queue visited mt ls h
    cases queue with
    | nil =>
      simp only [walkLoop, Option.some.injEq, Prod.mk.injEq] at h
      simp [← h.2]
    | cons a as => simp [walkLoop] at h
  | succ fuel ih =>
    intro queue visited mt ls h
    cases queue with
    | nil =>
      simp only [walkLoop, Option.some.injEq, Prod.mk.injEq] at h
      simp [← h.2]
    | cons current rest =>
      by_cases hv : current ∈ visited
      · rw [walkLoop, if_pos hv] at h
        exact ih rest visited mt ls h
      · rw [walkLoop, if_neg hv] at h
        match hrec : walkLoop env recursive dry_run fuel
            (rest ++ enqIds recursive (env current)) (current :: visited) with
        | none => rw [hrec] at h; simp at h
        | some (mt', ls') =>
          rw [hrec] at h
          simp only [Option.map_some', Option.some.injEq, Prod.mk.injEq] at h
          obtain ⟨hmt, hls⟩ := h
          obtain ⟨hnd, hnv⟩ := ih _ _ _ _ hrec
          subst hls
          constructor
          · refine List.nodup_cons.mpr ⟨?_, hnd⟩
            intro hmem
            exact (hnv current hmem) (List.mem_cons_self current visited)
          · intro x hx
            rcases List.mem_cons.mp hx with heq | hmem
            · exact heq ▸ hv
            · intro hxv
              exact (hnv x hmem) (List.mem_cons_of_mem current hxv)

/-- One step of the pure loop on a non-empty queue. -/
theorem pureLoop_cons (env : ChildrenMap) (recursive : Bool) (fuel : Nat)
    (current : String) (rest : List String) :
    pureLoop env recursive (fuel + 1) (current :: rest)
      = (pureLoop env recursive fuel (rest ++ enqIds recursive (env current))).map
          (fun r => (childIds (env current) ++ r.1, current :: r.2)) := rfl

/-- One step of the engine loop on a non-empty queue. -/
theorem walkLoop_cons (env : ChildrenMap) (recursive dry_run : Bool) (fuel : Nat)
    (current : String) (rest visited : List String) :
    walkLoop env recursive dry_run (fuel + 1) (current :: rest) visited
      = if current ∈ visited then
          walkLoop env recursive dry_run fuel rest visited
        else
          (walkLoop env recursive dry_run fuel
              (rest ++ enqIds recursive (env current)) (current :: visited)).map
            (fun r => ((childIds (env current)).map (fun i => (i, dry_run)) ++ r.1,
                       current :: r.2)) := rfl

/-- Unfolding of `nextFront`. -/
theorem nextFront_def (env : ChildrenMap) (recursive : Bool) (front : List String) :
    nextFront env recursive front
      = (front.map (fun i => enqIds recursive (env i))).flatten := rfl

/-- Processing a whole front at the head of the queue: the pure loop emits the
children of every folder of the front, in order, and moves the enqueued folder
ids behind the rest of the queue. -/
theorem pureLoop_level (env : ChildrenMap) (recursive : Bool) :
    ∀ (front acc : List String) (fuel : Nat),
      pureLoop env recursive (front.length + fuel) (front ++ acc)
        = (pureLoop env recursive fuel
              (acc ++ (front.map (fun i => enqIds recursive (env i))).flatten)).map
            (fun r => (levelMuts env front ++ r.1, front ++ r.2)) := by
  intro front
  induction front with
  | nil =>
    intro acc fuel
    simp only [List.length_nil, Nat.zero_add, List.nil_append, List.map_nil,
      List.flatten_nil, List.append_nil, levelMuts]
    cases pureLoop env recursive fuel acc <;> simp
  | cons a front ih =>
    intro acc fuel
    have hlen : (a :: front).length + fuel = (front.length + fuel) + 1 := by
      simp only [List.length_cons]; omega
    rw [hlen, List.cons_append, pureLoop_cons, List.append_assoc,
      ih (acc ++ enqIds recursive (env a)) fuel, Option.map_map]
    rw [List.append_assoc]
    simp only [levelMuts, List.map_cons, List.flatten_cons, List.append_assoc,
      List.cons_append]
    rfl

/-- Running the pure loop from a front that dies out within `d` levels: the
mutation trace is the concatenation of the per-level child listings, level by
level, and the listed folders are the fronts in order. -/
theorem pureLoop_fronts (env : ChildrenMap) (recursive : Bool) :
    ∀ (d : Nat) (front : List String) (fuel : Nat),
      frontAfter env recursive d front = [] →
      pureLoop env recursive ((fronts env recursive d front).flatten.length + fuel) front
        = some (((fronts env recursive d front).map (levelMuts env)).flatten,
                (fronts env recursive d front).flatten) := by
  intro d
  induction d with
  | zero =>
    intro front fuel h
    simp only [frontAfter] at h
    subst h
    simp [fronts, pureLoop_nil]
  | succ d ih =>
    intro front fuel h
    simp only [frontAfter] at h
    have hstep := pureLoop_level env recursive front []
      ((fronts env recursive d (nextFront env recursive front)).flatten.length + fuel)
    rw [List.append_nil, List.nil_append, ← nextFront_def,
      ih (nextFront env recursive front) fuel h] at hstep
    simp only [fronts, List.flatten_cons, List.map_cons, List.length_append]
    rw [Nat.add_assoc, hstep]
    simp

/-- When the ids the pure loop would expand are pairwise distinct and none is
already visited, the visited-set guard of the real loop never fires and the
engine loop computes exactly the pure loop's traces (with the dry-run flag
attached to every mutator call). -/
theorem walkLoop_of_pureLoop (env : ChildrenMap) (recursive dry_run : Bool) :
    ∀ (fuel : Nat) (queue visited : List String) (mt ls : List String),
      pureLoop env recursive fuel queue = some (mt, ls) →
      ls.Nodup → (∀ x ∈ ls, x ∉ visited) →
      walkLoop env recursive dry_run fuel queue visited
        = some (mt.map (fun i => (i, dry_run)), ls) := by
  intro fuel
  induction fuel with
  | zero =>
    intro queue visited mt ls h hnd hdis
    cases queue with
    | nil =>
      simp only [pureLoop, Option.some.injEq, Prod.mk.injEq] at h
      simp [walkLoop, ← h.1, ← h.2]
    | cons a as => simp [pureLoop] at h
  | succ fuel ih =>
    intro queue visited mt ls h hnd hdis
    cases queue with
    | nil =>
      simp only [pureLoop, Option.some.injEq, Prod.mk.injEq] at h
      simp [walkLoop, ← h.1, ← h.2]
    | cons current rest =>
      rw [pureLoop_cons] at h
      match hrec : pureLoop env recursive fuel
          (rest ++ enqIds recursive (env current)) with
      | none => rw [hrec] at h; simp at h
      | some (mt', ls') =>
        rw [hrec] at h
        simp only [Option.map_some', Option.some.injEq, Prod.mk.injEq] at h
        obtain ⟨hmt, hls⟩ := h
        subst hls
        have hcv : current ∉ visited := hdis current (List.mem_cons_self _ _)
        have hnd' : ls'.Nodup := (List.nodup_cons.mp hnd).2
        have hcls : current ∉ ls' := (List.nodup_cons.mp hnd).1
        have hdis' : ∀ x ∈ ls', x ∉ current :: visited := by
          intro x hx
          intro hmem
          rcases List.mem_cons.mp hmem with heq | hv
          · exact hcls (heq ▸ hx)
          · exact hdis x (List.mem_cons_of_mem _ hx) hv
        rw [walkLoop_cons, if_neg hcv, ih _ (current :: visited) mt' ls' hrec hnd' hdis']
        simp [← hmt]

/-- Flattening preserves pointwise sublists. -/
theorem flatten_sublist_of_forall (f g : String → List String) :
    ∀ (front : List String), (∀ i, List.Sublist (f i) (g i)) →
      List.Sublist (front.map f).flatten (front.map g).flatten := by
  intro front h
  induction front with
  | nil => simp
  | cons a front ih => simpa using List.Sublist.append (h a) ih

/-- The folder ids enqueued from a front are a sublist of the ids mutated while
expanding it: only the folder-typed children get enqueued. -/
theorem nextFront_sublist (env : ChildrenMap) (recursive : Bool) (front : List String) :
    List.Sublist (nextFront env recursive front) (levelMuts env front) := by
  apply flatten_sublist_of_forall
  intro i
  unfold enqIds childIds
  cases recursive with
  | false => simp
  | true =>
    simp only [if_pos]
    exact List.Sublist.map _ (List.filter_sublist _)

/-- The ids the engine dequeues (the fronts) are a sublist of the front it
started from followed by all ids it mutates. -/
theorem fronts_flatten_sublist (env : ChildrenMap) (recursive : Bool) :
    ∀ (d : Nat) (front : List String),
      List.Sublist (fronts env recursive d front).flatten
        (front ++ ((fronts env recursive d front).map (levelMuts env)).flatten) := by
  intro d
  induction d with
  | zero => intro front; simp [fronts]
  | succ d ih =>
    intro front
    simp only [fronts, List.flatten_cons, List.map_cons]
    refine List.Sublist.append_left ?_ front
    exact (ih (nextFront env recursive front)).trans
      (List.Sublist.append (nextFront_sublist env recursive front) (List.Sublist.refl _))

/-- C1 fails on the code: in the recursive run over `cycEnv` the root object
"A" receives two mutation attempts — once as the root and once when it is
listed as a child of the expanded folder "B" — although each folder is
expanded (listed) only once.  The visited set de-duplicates expansion, not
mutation. -/
theorem C1_counterexample :
    (update_folder_and_contents cycEnv "A" true false 10).map
        (fun r => ((r.1.map Prod.fst).count "A", r.1.map Prod.fst, r.2))
      = some (2, ["A", "B", "A"], ["A", "B"]) := by decide

/-- C1 (amended): once an identifier is added to the visited set it is never
removed and never re-expanded — the folders expanded (listed) in any completed
run are pairwise distinct, regardless of duplicate enqueues or cyclic parent
references; objects may however receive more than one mutation attempt when
they appear as children of several expanded folders. -/
theorem C1_visited_once (env : ChildrenMap) (root : String) (recursive dry_run : Bool)
    (fuel : Nat) (mt : List (String × Bool)) (ls : List String)
    (h : update_folder_and_contents env root recursive dry_run fuel = some (mt, ls)) :
    ls.Nodup := by
  unfold update_folder_and_contents at h
  match hrec : walkLoop env recursive dry_run fuel [root] [] with
  | none => rw [hrec] at h; simp at h
  | some (mt', ls') =>
    rw [hrec] at h
    simp only [Option.some.injEq, Prod.mk.injEq] at h
    exact h.2 ▸ (walkLoop_listed_nodup env recursive dry_run fuel [root] [] mt' ls' hrec).1

/-- Witness for the amended C1: the cyclic run above completes, and the folders
it expanded are pairwise distinct. -/
theorem C1_visited_once_witness : (["A", "B"] : List String).Nodup :=
  C1_visited_once cycEnv "A" true false 10
    [("A", false), ("B", false), ("A", false)] ["A", "B"] (by decide)

/-- C2: in every completed run (recursive or not, dry-run or not) over a
hierarchy whose reachable objects are pairwise distinct (a tree), the mutation
trace is exactly the root followed by the BFS levels in order — every object at
depth d is mutated before anything strictly deeper is discovered, mutation
order inside a level follows the server's listing order per expanded folder,
and the root is mutated exactly once, first, before the traversal loop. -/
theorem C2_bfs_order (env : ChildrenMap) (root : String) (recursive dry_run : Bool)
    (fuel d : Nat)
    (hterm : frontAfter env recursive d [root] = [])
    (hfuel : (fronts env recursive d [root]).flatten.length ≤ fuel)
    (hnodup : (root :: ((fronts env recursive d [root]).map (levelMuts env)).flatten).Nodup) :
    update_folder_and_contents env root recursive dry_run fuel
      = some ((root :: ((fronts env recursive d [root]).map (levelMuts env)).flatten).map
                (fun i => (i, dry_run)),
              (fronts env recursive d [root]).flatten)
    ∧ (root :: ((fronts env recursive d [root]).map (levelMuts env)).flatten).count root
        = 1 := by
  have hfe : (fronts env recursive d [root]).flatten.length
      + (fuel - (fronts env recursive d [root]).flatten.length) = fuel := by omega
  have hpure := pureLoop_fronts env recursive d [root]
    (fuel - (fronts env recursive d [root]).flatten.length) hterm
  rw [hfe] at hpure
  have hsub : List.Sublist (fronts env recursive d [root]).flatten
      (root :: ((fronts env recursive d [root]).map (levelMuts env)).flatten) := by
    simpa using fronts_flatten_sublist env recursive d [root]
  have hlsnd : (fronts env recursive d [root]).flatten.Nodup := hnodup.sublist hsub
  have hw := walkLoop_of_pureLoop env recursive dry_run fuel [root] [] _ _ hpure hlsnd
    (by simp)
  have hroot : root ∉ ((fronts env recursive d [root]).map (levelMuts env)).flatten :=
    (List.nodup_cons.mp hnodup).1
  constructor
  · unfold update_folder_and_contents
    rw [hw]
    simp
  · simp [List.count_cons_self, List.count_eq_zero_of_not_mem hroot]

/-- Witness for C2: the spec's scenario run mutates R, folderA, file1, file2 in
breadth-first order — four mutation calls — and lists R and folderA only. -/
theorem C2_bfs_order_witness :
    update_folder_and_contents scenarioEnv "R" true false 10
      = some ([("R", false), ("folderA", false), ("file1", false), ("file2", false)],
              ["R", "folderA"]) :=
  (C2_bfs_order scenarioEnv "R" true false 10 2 (by decide) (by decide)
    (by decide)).1.trans (by decide)

/-- C3: in non-recursive mode, every run mutates exactly the root followed by
its direct children in listing order, and `list_children` is invoked on the
root only — grandchildren are never listed and never mutated, even when direct
children are folders. -/
theorem C3_nonrecursive (env : ChildrenMap) (root : String) (dry_run : Bool)
    (fuel : Nat) (hfuel : 1 ≤ fuel) :
    update_folder_and_contents env root false dry_run fuel
      = some ((root, dry_run) :: (childIds (env root)).map (fun i => (i, dry_run)),
              [root]) := by
  obtain ⟨k, rfl⟩ : ∃ k, fuel = k + 1 := ⟨fuel - 1, by omega⟩
  unfold update_folder_and_contents
  rw [walkLoop_cons, if_neg (List.not_mem_nil root)]
  simp [enqIds, walkLoop_nil]

/-- Witness for C3: the non-recursive run over the scenario map mutates R,
folderA, file1 only — three calls, file2 untouched — and lists only R. -/
theorem C3_nonrecursive_witness :
    update_folder_and_contents scenarioEnv "R" false false 5
      = some ([("R", false), ("folderA", false), ("file1", false)], ["R"]) :=
  (C3_nonrecursive scenarioEnv "R" false 5 (by decide)).trans (by decide)

/-- The loop's traversal is independent of the dry-run flag: only the flag
recorded on each mutator call differs. -/
theorem walkLoop_dry_run (env : ChildrenMap) (recursive : Bool) (d1 d2 : Bool) :
    ∀ (fuel : Nat) (queue visited : List String),
      (walkLoop env recursive d1 fuel queue visited).map stripFlags
        = (walkLoop env recursive d2 fuel queue visited).map stripFlags := by
  intro fuel
  induction fuel with
  | zero => intro queue visited; cases queue <;> rfl
  | succ fuel ih =>
    intro queue visited
    cases queue with
    | nil => rfl
    | cons current rest =>
      rw [walkLoop_cons, walkLoop_cons]
      by_cases hv : current ∈ visited
      · rw [if_pos hv, if_pos hv]; exact ih rest visited
      · rw [if_neg hv, if_neg hv]
        have hF : ∀ (d : Bool),
            (stripFlags ∘ (fun r : List (String × Bool) × List String =>
              ((childIds (env current)).map (fun i => (i, d)) ++ r.1, current :: r.2)))
            = ((fun s : List String × List String =>
                (childIds (env current) ++ s.1, current :: s.2)) ∘ stripFlags) := by
          intro d
          funext r
          simp [stripFlags, List.map_map, Function.comp_def]
        rw [Option.map_map, Option.map_map, hF d1, hF d2, ← Option.map_map,
          ← Option.map_map, ih (rest ++ enqIds recursive (env current)) (current :: visited)]

/-- C9: a dry run traverses the hierarchy exactly as a real run does —
`list_children` is called on the same folders, in the same order, and the same
objects receive mutator calls in the same order; the dry-run flag only changes
the flag passed to each mutator call (which then skips the network mutation). -/
theorem C9_dry_run_lists (env : ChildrenMap) (root : String) (recursive : Bool)
    (fuel : Nat) :
    (update_folder_and_contents env root recursive true fuel).map stripFlags
      = (update_folder_and_contents env root recursive false fuel).map stripFlags := by
  unfold update_folder_and_contents
  have h := walkLoop_dry_run env recursive true false fuel [root] []
  cases h1 : walkLoop env recursive true fuel [root] [] with
  | none =>
    cases h2 : walkLoop env recursive false fuel [root] [] with
    | none => rfl
    | some w => rw [h1, h2] at h; simp at h
  | some v =>
    cases h2 : walkLoop env recursive false fuel [root] [] with
    | none => rw [h1, h2] at h; simp at h
    | some w =>
      rw [h1, h2] at h
      simp only [Option.map_some', Option.some.injEq] at h
      have h' : (List.map Prod.fst v.1, v.2) = (List.map Prod.fst w.1, w.2) := h
      rw [Prod.mk.injEq] at h'
      simp [stripFlags, h'.1, h'.2]

/-- The loop never issues more calls than it has attempts. -/
theorem retryLoop_calls_le (call : Nat → CallResult) (jitter : Nat → ℚ) (b : ℚ) :
    ∀ (rem attempt : Nat), (retryLoop call jitter b attempt rem).calls ≤ rem := by
  intro rem
  induction rem with
  | zero => intro attempt; simp [retryLoop]
  | succ rem ih =>
    intro attempt
    cases hc : call attempt with
    | ok r => simp [retryLoop, hc]
    | otherError => simp [retryLoop, hc]
    | httpError status =>
      by_cases ht : isTransientStatus status
      · simp only [retryLoop, hc, if_pos ht]
        exact Nat.succ_le_succ (ih (attempt + 1))
      · simp [retryLoop, hc, ht]

/-- When every remaining attempt fails transiently the loop sleeps once per
attempt — `2 ^ i` plus the jitter draw at attempt `i` — and ends exhausted
after using every attempt. -/
theorem retryLoop_all_transient (call : Nat → CallResult) (jitter : Nat → ℚ) (b : ℚ) :
    ∀ (rem attempt : Nat),
      (∀ i, attempt ≤ i → i < attempt + rem → isTransient (call i) = true) →
      retryLoop call jitter b attempt rem
        = ⟨.retriesExhausted,
           (List.range' attempt rem).map (fun i => (i, b * 2 ^ i + jitter i)), rem⟩ := by
  intro rem
  induction rem with
  | zero => intro attempt h; simp [retryLoop]
  | succ rem ih =>
    intro attempt h
    have h0 : isTransient (call attempt) = true := h attempt le_rfl (by omega)
    cases hc : call attempt with
    | ok r => rw [hc] at h0; simp [isTransient] at h0
    | otherError => rw [hc] at h0; simp [isTransient] at h0
    | httpError status =>
      rw [hc] at h0
      simp only [isTransient] at h0
      simp only [retryLoop, hc, if_pos h0,
        ih (attempt + 1) (fun i h1 h2 => h i (by omega) (by omega))]
      rw [List.range'_succ]
      simp

/-- When the first `i` attempts fail transiently and attempt `i` does not, the
loop performs exactly `i` sleeps, issues `i + 1` calls, and ends with the
immediate outcome of attempt `i`'s result. -/
theorem retryLoop_first_failure (call : Nat → CallResult) (jitter : Nat → ℚ) (b : ℚ) :
    ∀ (rem attempt i : Nat), i < rem →
      (∀ j, attempt ≤ j → j < attempt + i → isTransient (call j) = true) →
      isTransient (call (attempt + i)) = false →
      retryLoop call jitter b attempt rem
        = ⟨immediateOutcome (call (attempt + i)),
           (List.range' attempt i).map (fun j => (j, b * 2 ^ j + jitter j)), i + 1⟩ := by
  intro rem
  induction rem with
  | zero => intro attempt i hi; omega
  | succ rem ih =>
    intro attempt i hi hpre hnon
    cases i with
    | zero =>
      rw [Nat.add_zero] at hnon
      cases hc : call attempt with
      | ok r => simp [retryLoop, hc, immediateOutcome]
      | otherError => simp [retryLoop, hc, immediateOutcome]
      | httpError status =>
        rw [hc] at hnon
        simp only [isTransient] at hnon
        simp [retryLoop, hc, hnon, immediateOutcome]
    | succ i =>
      have h0 : isTransient (call attempt) = true := hpre attempt le_rfl (by omega)
      cases hc : call attempt with
      | ok r => rw [hc] at h0; simp [isTransient] at h0
      | otherError => rw [hc] at h0; simp [isTransient] at h0
      | httpError status =>
        rw [hc] at h0
        simp only [isTransient] at h0
        have hrec := ih (attempt + 1) i (by omega)
          (fun j h1 h2 => hpre j (by omega) (by omega))
          (by rw [show attempt + 1 + i = attempt + (i + 1) by omega]; exact hnon)
        simp only [retryLoop, hc, if_pos h0, hrec]
        rw [List.range'_succ, show attempt + 1 + i = attempt + (i + 1) by omega]
        simp

/-- Every sleep the loop records at attempt index `i` lasts exactly
`backoff_base * 2 ^ i + jitter i` seconds. -/
theorem retryLoop_sleeps_shape (call : Nat → CallResult) (jitter : Nat → ℚ) (b : ℚ) :
    ∀ (rem attempt : Nat), ∀ p ∈ (retryLoop call jitter b attempt rem).sleeps,
      p.2 = b * 2 ^ p.1 + jitter p.1 := by
  intro rem
  induction rem with
  | zero => intro attempt p hp; simp [retryLoop] at hp
  | succ rem ih =>
    intro attempt p hp
    cases hc : call attempt with
    | ok r => rw [retryLoop] at hp; rw [hc] at hp; simp at hp
    | otherError => rw [retryLoop] at hp; rw [hc] at hp; simp at hp
    | httpError status =>
      by_cases ht : isTransientStatus status
      · rw [retryLoop] at hp
        simp only [hc, if_pos ht, List.mem_cons] at hp
        rcases hp with heq | hmem
        · subst heq; rfl
        · exact ih (attempt + 1) p hmem
      · rw [retryLoop] at hp
        simp [hc, ht] at hp

/-- C4: the mutator retries exactly on HTTP 429/500/503, issuing at most
`max_retries` update calls (the module default being 5); on the first attempt
whose result is not transient, the outcome is produced immediately — the
response for a success, the re-raised HttpError for any other 4xx/5xx status or
an unreadable status, the uncaught exception for a non-HTTP error — with no
further call and no sleep at that attempt; and when every attempt is transient
the run ends by raising the retry-exhausted error rather than returning. -/
theorem C4_retry_policy (service : String → String → Nat → CallResult)
    (jitter : Nat → ℚ) (file_id body fields : String) (max_retries : Nat) :
    DEFAULT_RETRIES = 5
    ∧ (retryable_update service jitter file_id body fields false max_retries).calls
        ≤ max_retries
    ∧ ((∀ i, i < max_retries → isTransient (service file_id body i) = true) →
        (retryable_update service jitter file_id body fields false max_retries).outcome
          = .retriesExhausted)
    ∧ (∀ i, i < max_retries →
        (∀ j, j < i → isTransient (service file_id body j) = true) →
        isTransient (service file_id body i) = false →
        retryable_update service jitter file_id body fields false max_retries
          = ⟨immediateOutcome (service file_id body i),
             (List.range' 0 i).map (fun j => (j, 1 * 2 ^ j + jitter j)), i + 1⟩) := by
  refine ⟨rfl, retryLoop_calls_le _ _ _ max_retries 0, ?_, ?_⟩
  · intro h
    show (retryLoop (service file_id body) jitter 1 0 max_retries).outcome = _
    rw [retryLoop_all_transient (service file_id body) jitter 1 max_retries 0
      (fun i h1 h2 => h i (by omega))]
  · intro i hi hpre hnon
    show retryLoop (service file_id body) jitter 1 0 max_retries = _
    have heq := retryLoop_first_failure (service file_id body) jitter 1 max_retries 0 i hi
      (fun j h1 h2 => hpre j (by omega)) (by rw [Nat.zero_add]; exact hnon)
    rw [Nat.zero_add] at heq
    exact heq

/-- Witness for C4: two 429s then a 403 under `max_retries = 5`: exactly three
calls, two sleeps, and the 403 propagates as a re-raised HttpError. -/
theorem C4_retry_policy_witness :
    retryable_update svc403 (fun _ => 1/2) "file1" "2025-10-20T09:20:25.000Z"
        "id, name, modifiedTime" false 5
      = ⟨.raisedHttp (some 403), [(0, 3/2), (1, 5/2)], 3⟩ := by
  have h := (C4_retry_policy svc403 (fun _ => 1/2) "file1" "2025-10-20T09:20:25.000Z"
    "id, name, modifiedTime" 5).2.2.2 2 (by omega) (by decide) (by decide)
  rw [h]
  norm_num [List.range', svc403, immediateOutcome]

/-- C5: every backoff sleep recorded at 0-indexed attempt `i` lasts exactly
`base * 2 ^ i + jitter` seconds with `base = 1`, so whenever the jitter draws
lie in [0, 1) every sleep lies in the half-open interval [2^i, 2^i + 1). -/
theorem C5_backoff_bounds (service : String → String → Nat → CallResult)
    (jitter : Nat → ℚ) (file_id body fields : String) (dry_run : Bool)
    (max_retries : Nat) (hj : ∀ i, 0 ≤ jitter i ∧ jitter i < 1) :
    ∀ p ∈ (retryable_update service jitter file_id body fields dry_run
             max_retries).sleeps,
      p.2 = 1 * 2 ^ p.1 + jitter p.1
      ∧ (2 : ℚ) ^ p.1 ≤ p.2 ∧ p.2 < 2 ^ p.1 + 1 := by
  intro p hp
  have hshape : p.2 = 1 * 2 ^ p.1 + jitter p.1 := by
    cases dry_run with
    | true => simp [retryable_update] at hp
    | false =>
      exact retryLoop_sleeps_shape (service file_id body) jitter 1 max_retries 0 p hp
  refine ⟨hshape, ?_, ?_⟩
  · rw [hshape]
    have := (hj p.1).1
    linarith
  · rw [hshape]
    have := (hj p.1).2
    linarith

/-- Witness for C5: with jitter draw 1/2, the first sleep of an all-429 run is
recorded and lies in [2^0, 2^0 + 1). -/
theorem C5_backoff_bounds_witness :
    (2 : ℚ) ^ (0 : Nat) ≤ 1 * 2 ^ (0 : Nat) + 1/2
    ∧ (1 : ℚ) * 2 ^ (0 : Nat) + 1/2 < 2 ^ (0 : Nat) + 1 := by
  have hm : ((0 : Nat), (1 : ℚ) * 2 ^ (0 : Nat) + 1/2)
      ∈ (retryable_update svc429 (fun _ => 1/2) "file1" "t" "id" false 5).sleeps := by
    simp [retryable_update, retryLoop, svc429, isTransientStatus]
  have h := C5_backoff_bounds svc429 (fun _ => 1/2) "file1" "t" "id" false 5
    (fun i => by norm_num) _ hm
  exact ⟨h.2.1, h.2.2⟩

/-- C6: with the dry-run flag set the mutator performs no network call for any
input, returns the Skipped result (Python `None`) and short-circuits before any
retry logic: zero update calls and zero sleeps, whatever the object identifier,
timestamp, fields, service behaviour or retry budget. -/
theorem C6_dry_run_skips (service : String → String → Nat → CallResult)
    (jitter : Nat → ℚ) (file_id body fields : String) (max_retries : Nat) :
    retryable_update service jitter file_id body fields true max_retries
      = ⟨.skipped, [], 0⟩ := rfl

/-- C10: when every attempt fails with a transient status the mutator sleeps
after each of the `max_retries` failed attempts — including the final one,
whose sleep is followed only by the retry-exhausted error — so exactly
`max_retries` sleeps occur, at attempt indices 0..max_retries-1, before the run
aborts. -/
theorem C10_exhaustion_sleeps (service : String → String → Nat → CallResult)
    (jitter : Nat → ℚ) (file_id body fields : String) (max_retries : Nat)
    (h : ∀ i, i < max_retries → isTransient (service file_id body i) = true) :
    (retryable_update service jitter file_id body fields false max_retries).sleeps.length
        = max_retries
    ∧ (retryable_update service jitter file_id body fields false
         max_retries).sleeps.map Prod.fst = List.range max_retries
    ∧ (retryable_update service jitter file_id body fields false max_retries).outcome
        = .retriesExhausted
    ∧ (retryable_update service jitter file_id body fields false max_retries).calls
        = max_retries := by
  have heq : retryable_update service jitter file_id body fields false max_retries
      = ⟨.retriesExhausted,
         (List.range' 0 max_retries).map (fun i => (i, 1 * 2 ^ i + jitter i)),
         max_retries⟩ :=
    retryLoop_all_transient (service file_id body) jitter 1 max_retries 0
      (fun i h1 h2 => h i (by omega))
  rw [heq]
  refine ⟨by simp, ?_, rfl, rfl⟩
  rw [List.map_map, List.range_eq_range']
  simp [Function.comp_def]

/-- Witness for C10: an all-429 run with the default budget of 5 attempts
sleeps exactly 5 times, at attempts 0..4, then ends exhausted. -/
theorem C10_exhaustion_sleeps_witness :
    (retryable_update svc429 (fun _ => 1/2) "file1" "t" "id" false 5).sleeps.length = 5
    ∧ (retryable_update svc429 (fun _ => 1/2) "file1" "t" "id" false 5).sleeps.map
        Prod.fst = List.range 5
    ∧ (retryable_update svc429 (fun _ => 1/2) "file1" "t" "id" false 5).outcome
        = .retriesExhausted
    ∧ (retryable_update svc429 (fun _ => 1/2) "file1" "t" "id" false 5).calls = 5 :=
  C10_exhaustion_sleeps svc429 (fun _ => 1/2) "file1" "t" "id" 5 (by decide)

/-- When the token chain finishes, the pagination loop returns the accumulator
followed by the concatenation of every page's files, and requests exactly the
chain's tokens in order. -/
theorem listLoop_of_pageChain (call : Option String → Option DrivePage) :
    ∀ (fuel : Nat) (tok : Option String) (acc : List DriveFile)
      (ps : List (Option String × DrivePage)),
      pageChain call fuel tok = some ps →
      listLoop call fuel acc tok
        = (.ok (acc ++ (ps.map (fun p => p.2.files)).flatten), ps.map Prod.fst) := by
  intro fuel
  induction fuel with
  | zero => intro tok acc ps h; simp [pageChain] at h
  | succ fuel ih =>
    intro tok acc ps h
    cases hc : call tok with
    | none => rw [pageChain, hc] at h; simp at h
    | some page =>
      rw [pageChain] at h
      simp only [hc] at h
      cases hn : page.nextPageToken with
      | none =>
        simp only [hn, Option.some.injEq] at h
        subst h
        rw [listLoop]
        simp [hc, hn]
      | some t =>
        simp only [hn, Option.map_eq_some'] at h
        obtain ⟨ps', hps', hcons⟩ := h
        subst hcons
        rw [listLoop]
        simp only [hc, hn, ih (some t) (acc ++ page.files) ps' hps']
        simp [List.append_assoc]

/-- C8: for every container identifier, when the server's continuation-token
chain terminates the lister returns one complete aggregated result — the
concatenation of all pages' files, in order — after requesting exactly the
chain's tokens, first `None` then each server-supplied continuation token once;
and the lister performs no retries: a failing list call ends the loop at once,
with that single request and the HttpError propagating. -/
theorem C8_pagination (server : String → Option String → Option DrivePage)
    (parent_id : String) (fuel : Nat) (ps : List (Option String × DrivePage))
    (h : pageChain (server parent_id) fuel none = some ps) :
    list_children server parent_id fuel
      = (.ok ((ps.map (fun p => p.2.files)).flatten), ps.map Prod.fst)
    ∧ (∀ (tok : Option String) (k : Nat) (acc : List DriveFile),
        server parent_id tok = none →
        listLoop (server parent_id) (k + 1) acc tok = (.httpError, [tok])) := by
  constructor
  · have := listLoop_of_pageChain (server parent_id) fuel none [] ps h
    rw [list_children, this]
    simp
  · intro tok k acc hfail
    rw [listLoop, hfail]

/-- Witness for C8: the two-page listing aggregates a, b, c in order with two
requests, and a failing request propagates at once. -/
theorem C8_pagination_witness :
    list_children twoPageServer "root" 5
      = (.ok [⟨"a", "a", "text/plain"⟩, ⟨"b", "b", "text/plain"⟩,
              ⟨"c", "c", "text/plain"⟩], [none, some "t1"])
    ∧ listLoop (twoPageServer "root") 3 [] (some "bad") = (.httpError, [some "bad"]) := by
  have h := C8_pagination twoPageServer "root" 5
    [(none, ⟨[⟨"a", "a", "text/plain"⟩, ⟨"b", "b", "text/plain"⟩], some "t1"⟩),
     (some "t1", ⟨[⟨"c", "c", "text/plain"⟩], none⟩)] (by decide)
  exact ⟨h.1.trans (by decide), h.2 (some "bad") 2 [] (by decide)⟩

/-- Everything `takeWhile` keeps satisfies the predicate. -/
theorem mem_takeWhile_pred (p : Char → Bool) :
    ∀ (cs : List Char), ∀ c ∈ cs.takeWhile p, p c = true := by
  intro cs
  induction cs with
  | nil => intro c hc; simp at hc
  | cons a as ih =>
    intro c hc
    by_cases hp : p a = true
    · rw [List.takeWhile_cons, if_pos hp] at hc
      rcases List.mem_cons.mp hc with rfl | hmem
      · exact hp
      · exact ih c hmem
    · rw [List.takeWhile_cons, if_neg hp] at hc
      simp at hc

/-- The head left by `dropWhile` fails the predicate. -/
theorem head_dropWhile_not (p : Char → Bool) :
    ∀ (cs : List Char) (c : Char), (cs.dropWhile p).head? = some c → p c = false := by
  intro cs
  induction cs with
  | nil => intro c h; simp at h
  | cons a as ih =>
    intro c h
    by_cases hp : p a = true
    · rw [List.dropWhile_cons, if_pos hp] at h
      exact ih c h
    · rw [List.dropWhile_cons, if_neg hp] at h
      simp only [List.head?_cons, Option.some.injEq] at h
      subst h
      exact Bool.eq_false_iff.mpr hp

/-- Soundness of the literal matcher. -/
theorem matchChar_eq_some (c : Char) (cs rest : List Char)
    (h : matchChar c cs = some rest) : cs = c :: rest := by
  cases cs with
  | nil => simp [matchChar] at h
  | cons x xs =>
    by_cases hx : x = c
    · subst hx
      simp [matchChar] at h
      rw [h]
    · simp [matchChar, hx] at h

/-- The literal matcher accepts its own character. -/
theorem matchChar_self (c : Char) (rest : List Char) :
    matchChar c (c :: rest) = some rest := by
  simp [matchChar]

/-- Soundness of the case-insensitive literal matcher. -/
theorem matchEither_eq_some (a b : Char) (cs rest : List Char)
    (h : matchEither a b cs = some rest) :
    ∃ x, cs = x :: rest ∧ (x = a ∨ x = b) := by
  cases cs with
  | nil => simp [matchEither] at h
  | cons x xs =>
    by_cases hx : x = a ∨ x = b
    · refine ⟨x, ?_, hx⟩
      have h' : (if x = a ∨ x = b then some xs else none) = some rest := h
      rw [if_pos hx] at h'
      simp only [Option.some.injEq] at h'
      rw [h']
    · simp [matchEither, hx] at h

/-- The case-insensitive literal matcher accepts either spelling. -/
theorem matchEither_intro (a b x : Char) (rest : List Char) (hx : x = a ∨ x = b) :
    matchEither a b (x :: rest) = some rest := by
  show (if x = a ∨ x = b then some rest else none) = some rest
  rw [if_pos hx]

/-- Splitting at a decimal-digit run: such a run followed by a non-digit (or
by nothing) is exactly what `takeWhile isDecDigit` keeps and `dropWhile`
leaves. -/
theorem takeWhile_digit_append :
    ∀ (run : List Char), DigitRun run →
      ∀ (rest : List Char), (∀ c, rest.head? = some c → isDecDigit c = false) →
        (run ++ rest).takeWhile isDecDigit = run
        ∧ (run ++ rest).dropWhile isDecDigit = rest := by
  intro run
  induction run with
  | nil =>
    intro _ rest h2
    simp only [List.nil_append]
    cases rest with
    | nil => exact ⟨rfl, rfl⟩
    | cons c cs =>
      have hc : isDecDigit c = false := h2 c rfl
      constructor
      · rw [List.takeWhile_cons, if_neg (by simp [hc])]
      · rw [List.dropWhile_cons, if_neg (by simp [hc])]
  | cons d run ih =>
    intro h1 rest h2
    have hd : isDecDigit d = true := h1 d (List.mem_cons_self _ _)
    obtain ⟨ht, hdw⟩ := ih (fun c hc => h1 c (List.mem_cons_of_mem _ hc)) rest h2
    constructor
    · rw [List.cons_append, List.takeWhile_cons, if_pos hd, ht]
    · rw [List.cons_append, List.dropWhile_cons, if_pos hd, hdw]

/-- Soundness of the generic field matcher: a successful match splits the
input at a decimal-digit run accepted by the field's full-run predicate. -/
theorem matchField_eq_some (runOk : List Char → Bool) (cs : List Char) (v : Nat)
    (rest : List Char) (h : matchField runOk cs = some (v, rest)) :
    ∃ run, cs = run ++ rest ∧ DigitRun run ∧ runOk run = true ∧ v = digitsVal run := by
  unfold matchField at h
  by_cases h1 : runOk (cs.takeWhile isDecDigit) = true
  · rw [if_pos h1] at h
    simp only [Option.some.injEq, Prod.mk.injEq] at h
    refine ⟨cs.takeWhile isDecDigit, ?_, mem_takeWhile_pred _ cs, h1, h.1.symm⟩
    rw [← h.2]
    exact (List.takeWhile_append_dropWhile isDecDigit cs).symm
  · rw [if_neg h1] at h; simp at h

/-- Completeness of the generic field matcher on a pre-split input. -/
theorem matchField_complete (runOk : List Char → Bool) (run rest : List Char)
    (hd : DigitRun run) (hok : runOk run = true)
    (h2 : ∀ c, rest.head? = some c → isDecDigit c = false) :
    matchField runOk (run ++ rest) = some (digitsVal run, rest) := by
  obtain ⟨ht, hdw⟩ := takeWhile_digit_append run hd rest h2
  unfold matchField
  rw [ht, hdw, if_pos hok]

/-- Unfolding of the day matcher on a non-empty input. -/
theorem matchDay_cons (c0 : Char) (rest0 : List Char) :
    matchDay (c0 :: rest0)
      = if c0 = ' ' then
          (match rest0 with
           | c :: rest =>
               if asciiBetween '1' '9' c = true then some (digitVal c, rest) else none
           | [] => none)
        else matchField dayRunOk (c0 :: rest0) := rfl

/-- The space of a space-padded day contributes zero in the tens place, so the
positional value of the two-character field is the digit's value — exactly
what `int` makes of the group. -/
theorem digitsVal_space_pad (c : Char) : digitsVal [' ', c] = digitVal c := by
  show (0 * 10 + digitVal ' ') * 10 + digitVal c = digitVal c
  norm_num [show digitVal ' ' = 0 from rfl]

/-- Soundness of the day matcher: a successful match splits the input at a
day field valued as `int` reads it. -/
theorem matchDay_eq_some (cs : List Char) (v : Nat) (rest : List Char)
    (h : matchDay cs = some (v, rest)) :
    ∃ ds, cs = ds ++ rest ∧ DayField ds ∧ v = digitsVal ds := by
  cases cs with
  | nil => simp [matchDay] at h
  | cons c0 rest0 =>
    rw [matchDay_cons] at h
    by_cases h0 : c0 = ' '
    · subst h0
      rw [if_pos rfl] at h
      cases rest0 with
      | nil => simp at h
      | cons c rest' =>
        have h' : (if asciiBetween '1' '9' c = true then some (digitVal c, rest')
            else none) = some (v, rest) := h
        by_cases hc : asciiBetween '1' '9' c = true
        · rw [if_pos hc] at h'
          simp only [Option.some.injEq, Prod.mk.injEq] at h'
          refine ⟨[' ', c], ?_, Or.inr ⟨c, rfl, hc⟩, ?_⟩
          · rw [← h'.2]; rfl
          · rw [← h'.1, digitsVal_space_pad]
        · rw [if_neg hc] at h'
          exact absurd h' (by simp)
    · rw [if_neg h0] at h
      obtain ⟨run, hsplit, hd, hok, hv⟩ := matchField_eq_some dayRunOk (c0 :: rest0) v rest h
      exact ⟨run, hsplit, Or.inl ⟨hd, hok⟩, hv⟩

/-- Completeness of the day matcher on a pre-split input. -/
theorem matchDay_complete (ds rest : List Char) (hf : DayField ds)
    (h2 : ∀ c, rest.head? = some c → isDecDigit c = false) :
    matchDay (ds ++ rest) = some (digitsVal ds, rest) := by
  rcases hf with ⟨hd, hok⟩ | ⟨c, rfl, hc⟩
  · cases ds with
    | nil =>
      have h' : (false : Bool) = true := hok
      exact absurd h' Bool.false_ne_true
    | cons d ds' =>
      have hdd : isDecDigit d = true := hd d (List.mem_cons_self _ _)
      have hne : ¬ d = ' ' := by
        intro he
        rw [he] at hdd
        exact absurd hdd (by decide)
      rw [List.cons_append, matchDay_cons, if_neg hne, ← List.cons_append]
      exact matchField_complete dayRunOk (d :: ds') rest hd hok h2
  · rw [show ([' ', c] ++ rest) = ' ' :: (c :: rest) from rfl, matchDay_cons, if_pos rfl]
    show (if asciiBetween '1' '9' c = true then some (digitVal c, rest) else none)
      = some (digitsVal [' ', c], rest)
    rw [if_pos hc, digitsVal_space_pad]

/-- Soundness of the fraction matcher. -/
theorem matchFrac_eq_some (cs rest : List Char) (h : matchFrac cs = some rest) :
    ∃ run, cs = run ++ rest ∧ DigitRun run ∧ fracRunOk run = true := by
  unfold matchFrac at h
  by_cases h1 : fracRunOk (cs.takeWhile isDecDigit) = true
  · rw [if_pos h1] at h
    simp only [Option.some.injEq] at h
    refine ⟨cs.takeWhile isDecDigit, ?_, mem_takeWhile_pred _ cs, h1⟩
    rw [← h]
    exact (List.takeWhile_append_dropWhile isDecDigit cs).symm
  · rw [if_neg h1] at h; simp at h

/-- Completeness of the fraction matcher. -/
theorem matchFrac_complete (run rest : List Char) (hd : DigitRun run)
    (hok : fracRunOk run = true)
    (h2 : ∀ c, rest.head? = some c → isDecDigit c = false) :
    matchFrac (run ++ rest) = some rest := by
  obtain ⟨ht, hdw⟩ := takeWhile_digit_append run hd rest h2
  unfold matchFrac
  rw [ht, hdw, if_pos hok]

/-- A cons whose head is not a decimal digit, in the form the split lemmas
use. -/
theorem head_cons_not_digit (c : Char) (xs : List Char) (hc : isDecDigit c = false) :
    ∀ x, ((c :: xs).head?) = some x → isDecDigit x = false := by
  intro x hx
  simp only [List.head?_cons, Option.some.injEq] at hx
  rwa [← hx]

/-- Soundness of the whole-seconds format match: a successful parse exhibits
the decomposition of the input into field runs and literal separators, and
the parsed fields are the runs' values. -/
theorem matchDateTime_whole_sound (cs : List Char) (t : ParsedTime)
    (h : matchDateTime false cs = some t) :
    ∃ ys ms ds hs ns ss tc zc,
      cs = ys ++ ('-' :: (ms ++ ('-' :: (ds ++ (tc :: (hs ++ (':' :: (ns
              ++ (':' :: (ss ++ [zc]))))))))))
      ∧ DigitRun ys ∧ yearRunOk ys = true
      ∧ DigitRun ms ∧ monthRunOk ms = true
      ∧ DayField ds
      ∧ DigitRun hs ∧ hourRunOk hs = true
      ∧ DigitRun ns ∧ minuteRunOk ns = true
      ∧ DigitRun ss ∧ secondRunOk ss = true
      ∧ (tc = 'T' ∨ tc = 't') ∧ (zc = 'Z' ∨ zc = 'z')
      ∧ t = ⟨digitsVal ys, digitsVal ms, digitsVal ds, digitsVal hs, digitsVal ns,
             digitsVal ss⟩ := by
  unfold matchDateTime at h
  simp only [Option.bind_eq_some] at h
  obtain ⟨p1, hY, r2, hC1, p2, hM, r4, hC2, p3, hD, r6, hT, p4, hH, r8, hC3,
    p5, hN, r10, hC4, p6, hS, r12, hIf, r13, hZ, hFin⟩ := h
  rw [if_neg (by simp)] at hIf
  simp only [Option.some.injEq] at hIf
  obtain ⟨ys, hcs, hysd, hysok, hvy⟩ := matchField_eq_some yearRunOk cs p1.1 p1.2 hY
  have hp12 : p1.2 = '-' :: r2 := matchChar_eq_some '-' p1.2 r2 hC1
  obtain ⟨ms, hr2, hmsd, hmsok, hvm⟩ := matchField_eq_some monthRunOk r2 p2.1 p2.2 hM
  have hp22 : p2.2 = '-' :: r4 := matchChar_eq_some '-' p2.2 r4 hC2
  obtain ⟨ds, hr4, hdf, hvd⟩ := matchDay_eq_some r4 p3.1 p3.2 hD
  obtain ⟨tc, hp32, htc⟩ := matchEither_eq_some 'T' 't' p3.2 r6 hT
  obtain ⟨hs, hr6, hhsd, hhsok, hvh⟩ := matchField_eq_some hourRunOk r6 p4.1 p4.2 hH
  have hp42 : p4.2 = ':' :: r8 := matchChar_eq_some ':' p4.2 r8 hC3
  obtain ⟨ns, hr8, hnsd, hnsok, hvn⟩ := matchField_eq_some minuteRunOk r8 p5.1 p5.2 hN
  have hp52 : p5.2 = ':' :: r10 := matchChar_eq_some ':' p5.2 r10 hC4
  obtain ⟨ss, hr10, hssd, hssok, hvs⟩ := matchField_eq_some secondRunOk r10 p6.1 p6.2 hS
  obtain ⟨zc, hr12, hzc⟩ := matchEither_eq_some 'Z' 'z' r12 r13 hZ
  by_cases hnil : r13 = []
  · rw [if_pos hnil] at hFin
    simp only [Option.some.injEq] at hFin
    refine ⟨ys, ms, ds, hs, ns, ss, tc, zc, ?_, hysd, hysok, hmsd, hmsok, hdf,
      hhsd, hhsok, hnsd, hnsok, hssd, hssok, htc, hzc, ?_⟩
    · rw [hcs, hp12, hr2, hp22, hr4, hp32, hr6, hp42, hr8, hp52, hr10, hIf, hr12, hnil]
    · rw [← hFin, hvy, hvm, hvd, hvh, hvn, hvs]
  · rw [if_neg hnil] at hFin
    simp at hFin

/-- Soundness of the fractional format match. -/
theorem matchDateTime_frac_sound (cs : List Char) (t : ParsedTime)
    (h : matchDateTime true cs = some t) :
    ∃ ys ms ds hs ns ss fr tc zc,
      cs = ys ++ ('-' :: (ms ++ ('-' :: (ds ++ (tc :: (hs ++ (':' :: (ns
              ++ (':' :: (ss ++ ('.' :: (fr ++ [zc]))))))))))))
      ∧ DigitRun ys ∧ yearRunOk ys = true
      ∧ DigitRun ms ∧ monthRunOk ms = true
      ∧ DayField ds
      ∧ DigitRun hs ∧ hourRunOk hs = true
      ∧ DigitRun ns ∧ minuteRunOk ns = true
      ∧ DigitRun ss ∧ secondRunOk ss = true
      ∧ DigitRun fr ∧ fracRunOk fr = true
      ∧ (tc = 'T' ∨ tc = 't') ∧ (zc = 'Z' ∨ zc = 'z')
      ∧ t = ⟨digitsVal ys, digitsVal ms, digitsVal ds, digitsVal hs, digitsVal ns,
             digitsVal ss⟩ := by
  unfold matchDateTime at h
  simp only [Option.bind_eq_some] at h
  obtain ⟨p1, hY, r2, hC1, p2, hM, r4, hC2, p3, hD, r6, hT, p4, hH, r8, hC3,
    p5, hN, r10, hC4, p6, hS, r12, hIf, r13, hZ, hFin⟩ := h
  rw [if_pos trivial] at hIf
  simp only [Option.bind_eq_some] at hIf
  obtain ⟨rmid, hDot, hFr⟩ := hIf
  obtain ⟨ys, hcs, hysd, hysok, hvy⟩ := matchField_eq_some yearRunOk cs p1.1 p1.2 hY
  have hp12 : p1.2 = '-' :: r2 := matchChar_eq_some '-' p1.2 r2 hC1
  obtain ⟨ms, hr2, hmsd, hmsok, hvm⟩ := matchField_eq_some monthRunOk r2 p2.1 p2.2 hM
  have hp22 : p2.2 = '-' :: r4 := matchChar_eq_some '-' p2.2 r4 hC2
  obtain ⟨ds, hr4, hdf, hvd⟩ := matchDay_eq_some r4 p3.1 p3.2 hD
  obtain ⟨tc, hp32, htc⟩ := matchEither_eq_some 'T' 't' p3.2 r6 hT
  obtain ⟨hs, hr6, hhsd, hhsok, hvh⟩ := matchField_eq_some hourRunOk r6 p4.1 p4.2 hH
  have hp42 : p4.2 = ':' :: r8 := matchChar_eq_some ':' p4.2 r8 hC3
  obtain ⟨ns, hr8, hnsd, hnsok, hvn⟩ := matchField_eq_some minuteRunOk r8 p5.1 p5.2 hN
  have hp52 : p5.2 = ':' :: r10 := matchChar_eq_some ':' p5.2 r10 hC4
  obtain ⟨ss, hr10, hssd, hssok, hvs⟩ := matchField_eq_some secondRunOk r10 p6.1 p6.2 hS
  have hp62 : p6.2 = '.' :: rmid := matchChar_eq_some '.' p6.2 rmid hDot
  obtain ⟨fr, hrmid, hfrd, hfrok⟩ := matchFrac_eq_some rmid r12 hFr
  obtain ⟨zc, hr12, hzc⟩ := matchEither_eq_some 'Z' 'z' r12 r13 hZ
  by_cases hnil : r13 = []
  · rw [if_pos hnil] at hFin
    simp only [Option.some.injEq] at hFin
    refine ⟨ys, ms, ds, hs, ns, ss, fr, tc, zc, ?_, hysd, hysok, hmsd, hmsok, hdf,
      hhsd, hhsok, hnsd, hnsok, hssd, hssok, hfrd, hfrok, htc, hzc, ?_⟩
    · rw [hcs, hp12, hr2, hp22, hr4, hp32, hr6, hp42, hr8, hp52, hr10, hp62, hrmid,
        hr12, hnil]
    · rw [← hFin, hvy, hvm, hvd, hvh, hvn, hvs]
  · rw [if_neg hnil] at hFin
    simp at hFin

/-- Completeness of the whole-seconds format match on a pre-split input. -/
theorem matchDateTime_whole_complete (ys ms ds hs ns ss : List Char) (tc zc : Char)
    (hy : DigitRun ys) (hyok : yearRunOk ys = true)
    (hm : DigitRun ms) (hmok : monthRunOk ms = true)
    (hdf : DayField ds)
    (hh : DigitRun hs) (hhok : hourRunOk hs = true)
    (hn : DigitRun ns) (hnok : minuteRunOk ns = true)
    (hsec : DigitRun ss) (hsok : secondRunOk ss = true)
    (htc : tc = 'T' ∨ tc = 't') (hzc : zc = 'Z' ∨ zc = 'z') :
    matchDateTime false
        (ys ++ ('-' :: (ms ++ ('-' :: (ds ++ (tc :: (hs ++ (':' :: (ns
          ++ (':' :: (ss ++ [zc])))))))))))
      = some ⟨digitsVal ys, digitsVal ms, digitsVal ds, digitsVal hs, digitsVal ns,
              digitsVal ss⟩ := by
  have htcd : isDecDigit tc = false := by rcases htc with rfl | rfl <;> rfl
  have hzcd : isDecDigit zc = false := by rcases hzc with rfl | rfl <;> rfl
  unfold matchDateTime
  rw [matchField_complete yearRunOk ys _ hy hyok (head_cons_not_digit '-' _ rfl)]
  simp only [Option.some_bind]
  rw [matchChar_self]
  simp only [Option.some_bind]
  rw [matchField_complete monthRunOk ms _ hm hmok (head_cons_not_digit '-' _ rfl)]
  simp only [Option.some_bind]
  rw [matchChar_self]
  simp only [Option.some_bind]
  rw [matchDay_complete ds _ hdf (head_cons_not_digit tc _ htcd)]
  simp only [Option.some_bind]
  rw [matchEither_intro 'T' 't' tc _ htc]
  simp only [Option.some_bind]
  rw [matchField_complete hourRunOk hs _ hh hhok (head_cons_not_digit ':' _ rfl)]
  simp only [Option.some_bind]
  rw [matchChar_self]
  simp only [Option.some_bind]
  rw [matchField_complete minuteRunOk ns _ hn hnok (head_cons_not_digit ':' _ rfl)]
  simp only [Option.some_bind]
  rw [matchChar_self]
  simp only [Option.some_bind]
  rw [matchField_complete secondRunOk ss _ hsec hsok (head_cons_not_digit zc _ hzcd)]
  simp only [Option.some_bind]
  rw [if_neg Bool.false_ne_true]
  simp only [Option.some_bind]
  rw [matchEither_intro 'Z' 'z' zc _ hzc]
  simp only [Option.some_bind]
  rw [if_pos trivial]

/-- Completeness of the fractional format match on a pre-split input. -/
theorem matchDateTime_frac_complete (ys ms ds hs ns ss fr : List Char) (tc zc : Char)
    (hy : DigitRun ys) (hyok : yearRunOk ys = true)
    (hm : DigitRun ms) (hmok : monthRunOk ms = true)
    (hdf : DayField ds)
    (hh : DigitRun hs) (hhok : hourRunOk hs = true)
    (hn : DigitRun ns) (hnok : minuteRunOk ns = true)
    (hsec : DigitRun ss) (hsok : secondRunOk ss = true)
    (hfrd : DigitRun fr) (hfrok : fracRunOk fr = true)
    (htc : tc = 'T' ∨ tc = 't') (hzc : zc = 'Z' ∨ zc = 'z') :
    matchDateTime true
        (ys ++ ('-' :: (ms ++ ('-' :: (ds ++ (tc :: (hs ++ (':' :: (ns
          ++ (':' :: (ss ++ ('.' :: (fr ++ [zc])))))))))))))
      = some ⟨digitsVal ys, digitsVal ms, digitsVal ds, digitsVal hs, digitsVal ns,
              digitsVal ss⟩ := by
  have htcd : isDecDigit tc = false := by rcases htc with rfl | rfl <;> rfl
  have hzcd : isDecDigit zc = false := by rcases hzc with rfl | rfl <;> rfl
  unfold matchDateTime
  rw [matchField_complete yearRunOk ys _ hy hyok (head_cons_not_digit '-' _ rfl)]
  simp only [Option.some_bind]
  rw [matchChar_self]
  simp only [Option.some_bind]
  rw [matchField_complete monthRunOk ms _ hm hmok (head_cons_not_digit '-' _ rfl)]
  simp only [Option.some_bind]
  rw [matchChar_self]
  simp only [Option.some_bind]
  rw [matchDay_complete ds _ hdf (head_cons_not_digit tc _ htcd)]
  simp only [Option.some_bind]
  rw [matchEither_intro 'T' 't' tc _ htc]
  simp only [Option.some_bind]
  rw [matchField_complete hourRunOk hs _ hh hhok (head_cons_not_digit ':' _ rfl)]
  simp only [Option.some_bind]
  rw [matchChar_self]
  simp only [Option.some_bind]
  rw [matchField_complete minuteRunOk ns _ hn hnok (head_cons_not_digit ':' _ rfl)]
  simp only [Option.some_bind]
  rw [matchChar_self]
  simp only [Option.some_bind]
  rw [matchField_complete secondRunOk ss _ hsec hsok (head_cons_not_digit '.' _ rfl)]
  simp only [Option.some_bind]
  rw [if_pos trivial]
  rw [matchChar_self]
  simp only [Option.some_bind]
  rw [matchFrac_complete fr _ hfrd hfrok (head_cons_not_digit zc _ hzcd)]
  simp only [Option.some_bind]
  rw [matchEither_intro 'Z' 'z' zc _ hzc]
  simp only [Option.some_bind]
  rw [if_pos trivial]

/-- The fractional format accepts exactly the `goodFrac` strings. -/
theorem strptimeAccepts_frac_iff (s : String) :
    strptimeAccepts true s = true ↔ goodFrac s := by
  constructor
  · intro h
    unfold strptimeAccepts at h
    cases hm : matchDateTime true s.data with
    | none =>
      rw [hm] at h
      have h' : false = true := h
      exact absurd h' Bool.false_ne_true
    | some t =>
      rw [hm] at h
      have h' : decide (DatetimeCtorOk t) = true := h
      have hok := of_decide_eq_true h'
      obtain ⟨ys, ms, ds, hs, ns, ss, fr, tc, zc, hdec, hysd, hysok, hmsd, hmsok,
        hdf, hhsd, hhsok, hnsd, hnsok, hssd, hssok, hfrd, hfrok, htc, hzc, ht⟩ :=
        matchDateTime_frac_sound s.data t hm
      subst ht
      exact ⟨ys, ms, ds, hs, ns, ss, fr, tc, zc,
        ⟨hysd, hysok, hmsd, hmsok, hdf, hhsd, hhsok, hnsd, hnsok, hssd, hssok, hok⟩,
        hfrd, hfrok, htc, hzc, hdec⟩
  · rintro ⟨ys, ms, ds, hs, ns, ss, fr, tc, zc, hcore, hfrd, hfrok, htc, hzc, hdec⟩
    obtain ⟨hysd, hysok, hmsd, hmsok, hdf, hhsd, hhsok, hnsd, hnsok, hssd, hssok,
      hctor⟩ := hcore
    unfold strptimeAccepts
    rw [hdec, matchDateTime_frac_complete ys ms ds hs ns ss fr tc zc hysd hysok
      hmsd hmsok hdf hhsd hhsok hnsd hnsok hssd hssok hfrd hfrok htc hzc]
    exact decide_eq_true hctor

/-- The whole-seconds format accepts exactly the `goodWhole` strings. -/
theorem strptimeAccepts_whole_iff (s : String) :
    strptimeAccepts false s = true ↔ goodWhole s := by
  constructor
  · intro h
    unfold strptimeAccepts at h
    cases hm : matchDateTime false s.data with
    | none =>
      rw [hm] at h
      have h' : false = true := h
      exact absurd h' Bool.false_ne_true
    | some t =>
      rw [hm] at h
      have h' : decide (DatetimeCtorOk t) = true := h
      have hok := of_decide_eq_true h'
      obtain ⟨ys, ms, ds, hs, ns, ss, tc, zc, hdec, hysd, hysok, hmsd, hmsok,
        hdf, hhsd, hhsok, hnsd, hnsok, hssd, hssok, htc, hzc, ht⟩ :=
        matchDateTime_whole_sound s.data t hm
      subst ht
      exact ⟨ys, ms, ds, hs, ns, ss, tc, zc,
        ⟨hysd, hysok, hmsd, hmsok, hdf, hhsd, hhsok, hnsd, hnsok, hssd, hssok, hok⟩,
        htc, hzc, hdec⟩
  · rintro ⟨ys, ms, ds, hs, ns, ss, tc, zc, hcore, htc, hzc, hdec⟩
    obtain ⟨hysd, hysok, hmsd, hmsok, hdf, hhsd, hhsok, hnsd, hnsok, hssd, hssok,
      hctor⟩ := hcore
    unfold strptimeAccepts
    rw [hdec, matchDateTime_whole_complete ys ms ds hs ns ss tc zc hysd hysok
      hmsd hmsok hdf hhsd hhsok hnsd hnsok hssd hssok htc hzc]
    exact decide_eq_true hctor

/-- C7 fails on the code in both directions.  The validator accepts
"2025-1-2T03:04:05Z" (one-digit month and day), "2025-01-02T03:04:0٥Z" (an
Arabic-Indic digit in the seconds, matched by the pattern's \d) and
"٢025-01-02T03:04:05Z" (an Arabic-Indic digit in the year), none of which
match either of the claim's layouts; and it rejects "2025-02-30T10:00:00Z",
which matches the claim's whole-seconds layout character by character but is
not a calendar date, so strptime raises ValueError and the validator returns
false. -/
theorem C7_counterexample :
    validate_rfc3339 "2025-1-2T03:04:05Z" = true
    ∧ specLayoutFrac "2025-1-2T03:04:05Z" = false
    ∧ specLayoutWhole "2025-1-2T03:04:05Z" = false
    ∧ validate_rfc3339 "2025-01-02T03:04:0٥Z" = true
    ∧ validate_rfc3339 "٢025-01-02T03:04:05Z" = true
    ∧ specLayoutWhole "٢025-01-02T03:04:05Z" = false
    ∧ specLayoutWhole "2025-02-30T10:00:00Z" = true
    ∧ validate_rfc3339 "2025-02-30T10:00:00Z" = false := by decide

/-- C7 (amended): the validator is a pure total function returning true
exactly for the strings year-month-dayThour:minute:second[.fraction]Z in
which each numeric field matches its CPython strptime pattern and the parsed
values pass the datetime constructor: the year is four Unicode decimal digits
(any script) valued 1-9999; the month one or two ASCII digits valued 1-12;
the day a one-or-two-digit run — a trailing Unicode digit allowed after a
leading 1 or 2 — or a space-padded ASCII digit, valued 1-31 and valid for the
month and year; hour, minute and second one or two digits, Unicode digits
allowed where the patterns put \d, valued 0-23, 0-59 and 0-59; the fraction
one to six ASCII digits; and the literal T and Z case-insensitive.  Every
other string, including RFC3339 variants bearing a timezone offset such as
+05:00, yields false. -/
theorem C7_validator_characterization :
    (∀ s : String, validate_rfc3339 s = true ↔ goodTimestamp s)
    ∧ validate_rfc3339 "2025-10-20T09:20:25+05:00" = false := by
  constructor
  · intro s
    unfold validate_rfc3339 goodTimestamp
    rw [Bool.or_eq_true, strptimeAccepts_frac_iff, strptimeAccepts_whole_iff]
  · decide
